import Mathlib

/-!
Verification of the query-and-mutation engine of the API-vagaCerta repository
(a json-server derivative).  The data model and the operations of
`src/service.ts` (`embed`, `nullifyForeignKey`, `deleteDependents`,
`fixItemsIds`, `fixAllItemsIds`, `Service.findById`, `Service.find`,
`Service.create`, `Service.updateById`, `Service.destroyById`) are shallowly
embedded below; pieces of the filter/sort/paginate pipeline that the source
elides are modelled from the specification and marked as such in their doc
comments.
-/

namespace VagaCerta

/-- A JSON-like value as stored in the document store.  Numbers are modelled
as integers (the repository's data and tests only use integral numbers).
JavaScript strict equality (`===`) on objects and arrays is reference
equality, which a structural model cannot represent; the comparison function
below conservatively treats two object/array values as distinct. -/
inductive Value where
  | str (s : String)
  | num (n : Int)
  | bool (b : Bool)
  | null
  | obj (fields : List (String × Value))
  | arr (elems : List Value)

/-- A record (`Item` in the source): a JavaScript object, modelled as an
association list with (by convention) pairwise-distinct keys, preserving
insertion order. -/
abbrev Item : Type := List (String × Value)

/-- `item[k]` of JavaScript: `none` models `undefined`. -/
def lookupVal (item : Item) (k : String) : Option Value :=
  (item.find? (fun kv => kv.1 == k)).map (fun kv => kv.2)

/-- `{ ...item, [k]: v }` of JavaScript (also `item[k] = v`): if `k` is
already a key its value is replaced in place, otherwise the pair is appended
at the end. -/
def setKey (item : Item) (k : String) (v : Value) : Item :=
  if item.any (fun kv => kv.1 == k) then
    item.map (fun kv => if kv.1 == k then (k, v) else kv)
  else item ++ [(k, v)]

/-- JavaScript strict equality `===` on primitive values; object and array
values compare by reference in JavaScript, modelled conservatively as never
equal. -/
def strictEq : Value → Value → Bool
  | .str a, .str b => a == b
  | .num a, .num b => a == b
  | .bool a, .bool b => a == b
  | .null, .null => true
  | _, _ => false

/-- Strict equality lifted to possibly-`undefined` values
(`undefined === undefined` is `true` in JavaScript). -/
def optStrictEq : Option Value → Option Value → Bool
  | none, none => true
  | some a, some b => strictEq a b
  | _, _ => false

/-- A collection: either a list of records or a singleton record
(`Item[] | Item` in the source). -/
inductive Coll where
  | list (items : List Item)
  | single (item : Item)

/-- The document store (`Data` in the source): collection name to
collection, in key-insertion order. -/
abbrev Data : Type := List (String × Coll)

/-- `db.data[name]`. -/
def getColl (data : Data) (name : String) : Option Coll :=
  (data.find? (fun kv => kv.1 == name)).map (fun kv => kv.2)

/-- `db.data[name] = c` for an existing key `name` (in-place update used by
the mutation helpers; never adds a key). -/
def setColl (data : Data) (name : String) (c : Coll) : Data :=
  data.map (fun kv => if kv.1 == name then (name, c) else kv)

/-- The foreign-key field name `inflection.singularize(name) + "Id"`.  The
`inflection` singularization is an external library, taken as a parameter
`singular` throughout. -/
def foreignKey (singular : String → String) (name : String) : String :=
  singular name ++ "Id"

/-- `embed(db, name, item, related)` of the source: if `db.data[related]` is
absent the item is returned unchanged; if it is a list, a copy of the item is
returned with field `related` set to the sublist of related records whose
foreign key strictly equals the item's `id`.  If `db.data[related]` is a
singleton record, the source calls `.filter` on a non-array and throws,
modelled as `Except.error ()`. -/
def embed (singular : String → String) (data : Data) (name : String)
    (item : Item) (related : String) : Except Unit Item :=
  match getColl data related with
  | none => .ok item
  | some (.single _) => .error ()
  | some (.list rel) =>
      let fk := foreignKey singular name
      let relatedItems :=
        rel.filter (fun r => optStrictEq (lookupVal r fk) (lookupVal item "id"))
      .ok (setKey item related (.arr (relatedItems.map Value.obj)))

/-- The body of the `forEach` in `nullifyForeignKey`: set the foreign-key
field to `null` when it strictly equals the deleted id. -/
def nullifyItem (fk : String) (id : String) (item : Item) : Item :=
  if optStrictEq (lookupVal item fk) (some (.str id)) then
    setKey item fk .null
  else item

/-- `nullifyForeignKey(db, name, id)` of the source: in every list collection
other than `name`, any record whose foreign-key field strictly equals `id`
has that field set to `null`. -/
def nullifyForeignKey (singular : String → String) (data : Data)
    (name : String) (id : String) : Data :=
  let fk := foreignKey singular name
  data.map (fun kv =>
    if kv.1 == name then kv
    else
      match kv.2 with
      | .list items => (kv.1, .list (items.map (nullifyItem fk id)))
      | .single it => (kv.1, .single it))

/-- `deleteDependents(db, name, dependents)` of the source: every list
collection listed in `dependents` keeps only the records whose foreign-key
field is not strictly `null` (an absent field is kept: `undefined !== null`). -/
def deleteDependents (singular : String → String) (data : Data)
    (name : String) (dependents : List String) : Data :=
  let fk := foreignKey singular name
  data.map (fun kv =>
    if dependents.contains kv.1 then
      match kv.2 with
      | .list items =>
          (kv.1, .list (items.filter
            (fun it => !(optStrictEq (lookupVal it fk) (some .null)))))
      | .single it => (kv.1, .single it)
    else kv)

/-- One hexadecimal digit. -/
def hexDigit (n : Nat) : Char :=
  if n < 10 then Char.ofNat (48 + n) else Char.ofNat (87 + n)

/-- `randomId()` of the source: `randomBytes(2).toString('hex')`, i.e. the
four-hex-character rendering of two random bytes.  The randomness is taken
as a parameter: callers supply the drawn byte pair. -/
def randomId (b : Nat × Nat) : String :=
  ⟨[hexDigit (b.1 / 16 % 16), hexDigit (b.1 % 16),
    hexDigit (b.2 / 16 % 16), hexDigit (b.2 % 16)]⟩

/-- One iteration of the `forEach` in `fixItemsIds`: a numeric `id` is
stringified; an absent (`undefined`) `id` is replaced by the next generated
id; anything else is left untouched.  `gen n` is the string returned by the
`n`-th call to `randomId()`; the counter threads the successive calls. -/
def fixItem (gen : Nat → String) (item : Item) (n : Nat) : Item × Nat :=
  match lookupVal item "id" with
  | some (.num m) => (setKey item "id" (.str (toString m)), n)
  | none => (setKey item "id" (.str (gen n)), n + 1)
  | some _ => (item, n)

/-- `fixItemsIds(items)` of the source, with the stream of `randomId()`
results made explicit. -/
def fixItemsIds (gen : Nat → String) : List Item → Nat → List Item × Nat
  | [], n => ([], n)
  | it :: rest, n =>
      let p := fixItem gen it n
      let q := fixItemsIds gen rest p.2
      (p.1 :: q.1, q.2)

/-- `fixAllItemsIds(data)` of the source (run once by the `Service`
constructor): apply `fixItemsIds` to every list collection in order;
singleton collections are untouched. -/
def fixAllItemsIds (gen : Nat → String) : Data → Nat → Data × Nat
  | [], n => ([], n)
  | (k, .list items) :: rest, n =>
      let p := fixItemsIds gen items n
      let q := fixAllItemsIds gen rest p.2
      ((k, .list p.1) :: q.1, q.2)
  | (k, .single it) :: rest, n =>
      let q := fixAllItemsIds gen rest n
      ((k, .single it) :: q.1, q.2)

/-- The predicate `item['id'] === id` used by `findById`, `updateById` and
`destroyById` (the parameter `id` is a string). -/
def idMatch (id : String) (item : Item) : Bool :=
  optStrictEq (lookupVal item "id") (some (.str id))

/-- Replace the first element satisfying `p` (models
`items.splice(items.indexOf(item), 1, next)` where `item` is the first
match of `p`). -/
def replaceFirst (p : Item → Bool) (x : Item) : List Item → List Item
  | [] => []
  | a :: rest => if p a then x :: rest else a :: replaceFirst p x rest

/-- Remove the first element satisfying `p` (models
`items.splice(items.indexOf(item), 1)` where `item` is the first match of
`p`). -/
def removeFirst (p : Item → Bool) : List Item → List Item
  | [] => []
  | a :: rest => if p a then rest else a :: removeFirst p rest

/-- `Service.has(name)`. -/
def hasColl (data : Data) (name : String) : Bool :=
  data.any (fun kv => kv.1 == name)

/-- `Service.findById(name, id, query)`: linear scan of a list collection for
the first record whose `id` strictly equals `id`, then the requested
embeddings in order.  Returns `undefined` (`none`) when the collection is
missing or not a list, or when no record matches (the `forEach` is a no-op
then thanks to the `if (item)` guard). -/
def findById (singular : String → String) (data : Data) (name : String)
    (id : String) (embedList : List String) : Except Unit (Option Item) :=
  match getColl data name with
  | some (.list items) =>
      match items.find? (idMatch id) with
      | none => .ok none
      | some it =>
          (embedList.foldlM (fun acc rel => embed singular data name acc rel) it).map some
  | some (.single _) => .ok none
  | none => .ok none

/-- `Service.create(name, data)`: `{ id: randomId(), ...data }` pushed onto
the list collection.  `rid` is the string drawn by the single `randomId()`
call.  Note the spread order of the source: entries of `payload` are written
*after* the generated id, so a caller-supplied `id` overwrites the minted
one. -/
def create (rid : String) (data : Data) (name : String) (payload : Item) :
    Option Item × Data :=
  match getColl data name with
  | some (.list items) =>
      let item := payload.foldl (fun acc kv => setKey acc kv.1 kv.2)
        [("id", Value.str rid)]
      (some item, setColl data name (.list (items ++ [item])))
  | _ => (none, data)

/-- `Service.updateById(name, id, body)`: `{ ...item, ...body, id }` spliced
in place of the first record whose `id` matches. -/
def updateById (data : Data) (name : String) (id : String) (body : Item) :
    Option Item × Data :=
  match getColl data name with
  | some (.list items) =>
      match items.find? (idMatch id) with
      | none => (none, data)
      | some item =>
          let merged := body.foldl (fun acc kv => setKey acc kv.1 kv.2) item
          let nextItem := setKey merged "id" (.str id)
          (some nextItem,
            setColl data name (.list (replaceFirst (idMatch id) nextItem items)))
  | _ => (none, data)

/-- A query value as delivered by the transport layer: a single string, a
list of strings (repeated parameter), or an integer (the reserved numeric
parameters are parsed to integers before reaching the service). -/
inductive QVal where
  | str (s : String)
  | strs (l : List String)
  | num (n : Int)

/-- A query: parameter name to value. -/
abbrev Query : Type := List (String × QVal)

def qget (q : Query) (k : String) : Option QVal :=
  (q.find? (fun kv => kv.1 == k)).map (fun kv => kv.2)

/-- The string values carried by one query parameter. -/
def qvalStrings : QVal → List String
  | .str s => [s]
  | .strs l => l
  | .num n => [toString n]

/-- `ensureArray` of the source applied to a possibly-absent parameter. -/
def ensureArrayQ : Option QVal → List String
  | none => []
  | some v => qvalStrings v

/-- An integer-valued reserved parameter, when present. -/
def qint (q : Query) (k : String) : Option Int :=
  match qget q k with
  | some (.num n) => some n
  | _ => none

/-- Modelled from the spec: the reserved query parameter names, excluded
from filtering. -/
def reservedKeys : List String :=
  ["_embed", "_sort", "_order", "_start", "_end", "_limit", "_page", "_per_page"]

/-! Kernel-computable string helpers (suffix test, drop, split, integer
parsing) used by the spec-modelled query pipeline; they operate on the
character list underlying the string. -/

def strEndsWith (s suf : String) : Bool :=
  List.isPrefixOf suf.data.reverse s.data.reverse

def strDropRight (s : String) (n : Nat) : String :=
  ⟨s.data.take (s.data.length - n)⟩

def strStartsWith (s pre : String) : Bool :=
  List.isPrefixOf pre.data s.data

def strDrop (s : String) (n : Nat) : String :=
  ⟨s.data.drop n⟩

/-- Split a character list on a separator character; mirrors
`String.splitOn` with a one-character separator. -/
def splitOnChar (sep : Char) : List Char → List String
  | [] => [""]
  | c :: rest =>
      match splitOnChar sep rest with
      | [] => if c = sep then ["", ""] else [⟨[c]⟩]
      | h :: t =>
          if c = sep then "" :: h :: t
          else ⟨c :: h.data⟩ :: t

/-- The decimal digit of a character, if any. -/
def charDigit : Char → Option Nat := fun c =>
  if 48 ≤ c.toNat ∧ c.toNat ≤ 57 then some (c.toNat - 48) else none

/-- Parse a non-empty all-digit character list as a natural number. -/
def natOfDigits : Nat → List Char → Option Nat
  | _, [] => none
  | acc, [c] => (charDigit c).map (fun d => 10 * acc + d)
  | acc, c :: rest =>
      match charDigit c with
      | some d => natOfDigits (10 * acc + d) rest
      | none => none

/-- Parse an optionally-signed decimal integer; the numeric reading used by
the spec's "values are compared numerically when both sides parse as
numbers". -/
def strToInt (s : String) : Option Int :=
  match s.data with
  | '-' :: rest => (natOfDigits 0 rest).map (fun n => -(n : Int))
  | cs => (natOfDigits 0 cs).map (fun n => (n : Int))

/-- Modelled from the spec: the filter comparison operators; plain `<field>`
means equality. -/
inductive Cond where
  | eq | lt | lte | gt | gte | ne

/-- Modelled from the spec: a non-reserved query key is `<field>` or
`<field>_<op>` with `op ∈ {lt, lte, gt, gte, ne}` (the five suffixes are
mutually non-overlapping, so the test order is immaterial). -/
def parseCond (key : String) : String × Cond :=
  if strEndsWith key "_lt" then (strDropRight key 3, .lt)
  else if strEndsWith key "_lte" then (strDropRight key 4, .lte)
  else if strEndsWith key "_gt" then (strDropRight key 3, .gt)
  else if strEndsWith key "_gte" then (strDropRight key 4, .gte)
  else if strEndsWith key "_ne" then (strDropRight key 3, .ne)
  else (key, .eq)

/-- Modelled from the spec: dot-path resolution of a (possibly nested)
record attribute, as performed by the external `dot-prop` library. -/
def getPath (item : Item) (path : String) : Option Value :=
  go (splitOnChar '.' path.data) (Value.obj item)
where
  go : List String → Value → Option Value
    | [], v => some v
    | k :: rest, .obj fields => (lookupVal fields k).bind (fun v => go rest v)
    | _ :: _, _ => none

/-- A value's numeric reading, when it has one (a number, or a string that
parses as an integer). -/
def valueToInt : Value → Option Int
  | .num n => some n
  | .str s => strToInt s
  | _ => none

def intCmp (c : Cond) (a b : Int) : Bool :=
  match c with
  | .eq => a == b
  | .ne => a != b
  | .lt => decide (a < b)
  | .lte => decide (a ≤ b)
  | .gt => decide (b < a)
  | .gte => decide (b ≤ a)

/-- Modelled from the spec: one comparison of a resolved record attribute
against one query value.  Both sides numeric: compared numerically.
Otherwise eq/ne are strict equality against the (string) query value and the
order operators compare strings lexically (non-string attributes never
satisfy an order operator).  An absent attribute is `undefined`: unequal to
every string value. -/
def compareCond (c : Cond) (rv : Option Value) (qv : String) : Bool :=
  match rv with
  | none =>
      match c with
      | .ne => true
      | _ => false
  | some v =>
      match valueToInt v, strToInt qv with
      | some a, some b => intCmp c a b
      | _, _ =>
          match c with
          | .eq => strictEq v (.str qv)
          | .ne => !(strictEq v (.str qv))
          | .lt => match v with | .str s => decide (s < qv) | _ => false
          | .lte => match v with | .str s => decide (s ≤ qv) | _ => false
          | .gt => match v with | .str s => decide (qv < s) | _ => false
          | .gte => match v with | .str s => decide (qv ≤ s) | _ => false

/-- Modelled from the spec: a record matches a query when it matches every
non-reserved key (logical AND); a key with several values matches when any
one of them does (logical OR). -/
def matchesItem (q : Query) (it : Item) : Bool :=
  q.all (fun kv =>
    if reservedKeys.contains kv.1 then true
    else
      (qvalStrings kv.2).any (fun v =>
        compareCond (parseCond kv.1).2 (getPath it (parseCond kv.1).1) v))

/-- The key on which one record attribute is compared for sorting: a total
preorder on possibly-absent values (absent, then numeric by value, then
strings lexically, then booleans, then null, then objects/arrays — the spec
fixes only the numeric/string orderings; the remaining ranks are a modelling
choice that keeps the comparator total). -/
def sortKey : Option Value → Nat × Int × String
  | none => (0, 0, "")
  | some v =>
      match valueToInt v with
      | some n => (1, n, "")
      | none =>
          match v with
          | .str s => (2, 0, s)
          | .bool b => (3, if b then 1 else 0, "")
          | .null => (4, 0, "")
          | _ => (5, 0, "")

/-- Lexicographic strict order on sort keys. -/
def keyLt (a b : Nat × Int × String) : Prop :=
  a.1 < b.1 ∨ (a.1 = b.1 ∧ (a.2.1 < b.2.1 ∨ (a.2.1 = b.2.1 ∧ a.2.2 < b.2.2)))

instance (a b : Nat × Int × String) : Decidable (keyLt a b) := by
  unfold keyLt; infer_instance

/-- Modelled from the spec: the multi-key "is before or tied" comparator —
first field primary, ties broken by subsequent fields, a descending field
compared in reverse. -/
def fieldsLe (fields : List (String × Bool)) (a b : Item) : Bool :=
  match fields with
  | [] => true
  | f :: rest =>
      let ka := sortKey (getPath a f.1)
      let kb := sortKey (getPath b f.1)
      if ka = kb then fieldsLe rest a b
      else if f.2 then decide (keyLt kb ka)
      else decide (keyLt ka kb)

/-- Modelled from the spec: `_sort` holds a comma-separated list of field
names; a `-` prefix requests descending order. -/
def parseSortFields (s : String) : List (String × Bool) :=
  (splitOnChar ',' s.data).map (fun f =>
    if strStartsWith f "-" then (strDrop f 1, true) else (f, false))

/-- The paginated wrapper returned in page mode. -/
structure PaginatedItems where
  first : Nat
  prev : Option Nat
  next : Option Nat
  last : Nat
  pages : Nat
  items : Nat
  data : List Item

/-- The possible shapes of a successful `find`. -/
inductive FindResult where
  | items (l : List Item)
  | paginated (p : PaginatedItems)
  | single (item : Item)

/-- The embedding pass of `find` (present in the source): for each requested
related name, map `embed` over the current items. -/
def embedStep (singular : String → String) (data : Data) (name : String)
    (q : Query) (items : List Item) : Except Unit (List Item) :=
  (ensureArrayQ (qget q "_embed")).foldlM
    (fun acc rel => acc.mapM (fun it => embed singular data name it rel)) items

/-- Modelled from the spec: the sorting pass — a stable multi-key sort when
`_sort` is given, the identity otherwise. -/
def sortStep (q : Query) (l : List Item) : List Item :=
  match qget q "_sort" with
  | some (.str s) => l.mergeSort (fieldsLe (parseSortFields s))
  | _ => l

/-- Modelled from the spec: page-mode pagination.  `totalPages` is the
ceiling of count over page size, at least 1. -/
def paginateList (page per : Nat) (l : List Item) : PaginatedItems :=
  let tp := max 1 ((l.length + per - 1) / per)
  { first := 1
    prev := if 1 < page then some (page - 1) else none
    next := if page < tp then some (page + 1) else none
    last := tp
    pages := tp
    items := l.length
    data := (l.drop ((page - 1) * per)).take per }

/-- Page mode is selected when `_page` and/or `_per_page` is present. -/
def pageMode (q : Query) : Bool :=
  (qint q "_page").isSome || (qint q "_per_page").isSome

/-- Modelled from the spec: the requested page, clamped to at least 1,
defaulting to 1. -/
def pageOf (q : Query) : Nat := (max 1 ((qint q "_page").getD 1)).toNat

/-- Modelled from the spec: the page size, clamped to at least 1, defaulting
to 10 when only `_page` is given. -/
def perPageOf (q : Query) : Nat := (max 1 ((qint q "_per_page").getD 10)).toNat

/-- Slice mode is selected when `_start`, `_end` or `_limit` is present (and
page mode is not). -/
def sliceMode (q : Query) : Bool :=
  (qint q "_start").isSome || (qint q "_end").isSome || (qint q "_limit").isSome

/-- Modelled from the spec: slice-mode pagination — zero-based start index
with an exclusive end index or a count limit. -/
def sliceStep (q : Query) (l : List Item) : List Item :=
  let start := ((qint q "_start").getD 0).toNat
  match qint q "_end" with
  | some e => (l.drop start).take (e.toNat - start)
  | none =>
      match qint q "_limit" with
      | some lim => (l.drop start).take lim.toNat
      | none => l.drop start

/-- `Service.find(name, query)`.  The source keeps the singleton and
missing-collection cases and the embedding pass; the filter, sort and
pagination passes are elided there ("lógica reduzida") and are modelled from
the spec in the order it fixes: embed, filter, sort, paginate. -/
def find (singular : String → String) (data : Data) (name : String)
    (q : Query) : Except Unit (Option FindResult) :=
  match getColl data name with
  | none => .ok none
  | some (.single it) => .ok (some (.single it))
  | some (.list items) =>
      (embedStep singular data name q items).map (fun embedded =>
        let filtered := embedded.filter (matchesItem q)
        let sorted := sortStep q filtered
        if pageMode q then
          some (.paginated (paginateList (pageOf q) (perPageOf q) sorted))
        else if sliceMode q then some (.items (sliceStep q sorted))
        else some (.items sorted))

/-- `Service.destroyById(name, id, dependent)`: remove the first record whose
`id` matches, then `nullifyForeignKey`, then `deleteDependents` with
`ensureArray(dependent)`. -/
def destroyById (singular : String → String) (data : Data) (name : String)
    (id : String) (dependents : List String) : Option Item × Data :=
  match getColl data name with
  | some (.list items) =>
      match items.find? (idMatch id) with
      | none => (none, data)
      | some item =>
          let d1 := setColl data name (.list (removeFirst (idMatch id) items))
          let d2 := nullifyForeignKey singular d1 name id
          let d3 := deleteDependents singular d2 name dependents
          (some item, d3)
  | _ => (none, data)

/-! ### Helper lemmas about the record and store operations -/

theorem lookupVal_map_replace_self {item : Item} {k : String} (v : Value)
    (h : item.any (fun kv => kv.1 == k) = true) :
    lookupVal (item.map (fun kv => if kv.1 == k then (k, v) else kv)) k = some v := by
  induction item with
  | nil => simp at h
  | cons a rest ih =>
      by_cases hak : a.1 = k
      · simp [lookupVal, hak]
      · simp only [List.any_cons, Bool.or_eq_true] at h
        rcases h with h | h
        · exact absurd (by simpa using h) hak
        · simpa [lookupVal, hak] using ih h

theorem lookupVal_append_single_self {item : Item} {k : String} (v : Value)
    (h : item.any (fun kv => kv.1 == k) = false) :
    lookupVal (item ++ [(k, v)]) k = some v := by
  have hnone : item.find? (fun kv => kv.1 == k) = none := by
    rw [List.find?_eq_none]
    intro x hx
    exact List.any_eq_false.mp h x hx
  simp [lookupVal, List.find?_append, hnone]

theorem lookupVal_setKey_self (item : Item) (k : String) (v : Value) :
    lookupVal (setKey item k v) k = some v := by
  unfold setKey
  by_cases h : item.any (fun kv => kv.1 == k) = true
  · rw [if_pos h]; exact lookupVal_map_replace_self v h
  · rw [if_neg h]
    refine lookupVal_append_single_self v ?_
    simp only [Bool.not_eq_true] at h
    exact h

theorem lookupVal_map_replace_other (item : Item) {k k' : String} (v : Value)
    (h : k' ≠ k) :
    lookupVal (item.map (fun kv => if kv.1 == k then (k, v) else kv)) k' =
      lookupVal item k' := by
  induction item with
  | nil => rfl
  | cons a rest ih =>
      simp only [lookupVal] at ih ⊢
      by_cases hak : a.1 = k
      · rw [List.map_cons, if_pos (by simpa using hak),
          List.find?_cons_of_neg _ (by simpa using fun e : k = k' => h e.symm),
          List.find?_cons_of_neg _ (by simpa [hak] using fun e : k = k' => h e.symm)]
        exact ih
      · rw [List.map_cons, if_neg (by simpa using hak)]
        by_cases hak' : a.1 = k'
        · rw [List.find?_cons_of_pos _ (by simpa using hak'),
            List.find?_cons_of_pos _ (by simpa using hak')]
        · rw [List.find?_cons_of_neg _ (by simpa using hak'),
            List.find?_cons_of_neg _ (by simpa using hak')]
          exact ih

theorem lookupVal_setKey_other (item : Item) {k k' : String} (v : Value)
    (h : k' ≠ k) :
    lookupVal (setKey item k v) k' = lookupVal item k' := by
  unfold setKey
  split
  · exact lookupVal_map_replace_other item v h
  · have hkk : ((k, v).1 == k') = false := by
      simpa using fun e : k = k' => h e.symm
    simp [lookupVal, List.find?_append, hkk]

theorem lookupVal_foldl_setKey_not_mem (body : Item) (init : Item) {k : String}
    (h : k ∉ body.map Prod.fst) :
    lookupVal (body.foldl (fun acc kv => setKey acc kv.1 kv.2) init) k =
      lookupVal init k := by
  induction body generalizing init with
  | nil => rfl
  | cons b rest ih =>
      simp only [List.map_cons, List.mem_cons, not_or] at h
      rw [List.foldl_cons, ih (setKey init b.1 b.2) h.2,
        lookupVal_setKey_other _ _ h.1]

theorem lookupVal_foldl_setKey_mem (body : Item) (init : Item) {k : String}
    (hnd : (body.map Prod.fst).Nodup) (h : k ∈ body.map Prod.fst) :
    lookupVal (body.foldl (fun acc kv => setKey acc kv.1 kv.2) init) k =
      lookupVal body k := by
  induction body generalizing init with
  | nil => simp at h
  | cons b rest ih =>
      simp only [List.map_cons, List.nodup_cons] at hnd
      by_cases hbk : b.1 = k
      · have hk : k ∉ rest.map Prod.fst := hbk ▸ hnd.1
        rw [List.foldl_cons, lookupVal_foldl_setKey_not_mem rest _ hk]
        subst hbk
        rw [lookupVal_setKey_self]
        cases b with
        | mk b1 b2 => simp [lookupVal]
      · simp only [List.map_cons, List.mem_cons] at h
        rcases h with h | h
        · exact absurd h.symm hbk
        · rw [List.foldl_cons, ih _ hnd.2 h]
          simp [lookupVal, hbk]

theorem getColl_mapEntries (data : Data) (g : String → Coll → Coll) (k : String) :
    getColl (data.map (fun kv => (kv.1, g kv.1 kv.2))) k =
      (getColl data k).map (g k) := by
  induction data with
  | nil => rfl
  | cons a rest ih =>
      by_cases hak : a.1 = k
      · simp [getColl, hak]
      · simpa [getColl, hak] using ih

theorem setColl_eq_mapEntries (data : Data) (name : String) (c : Coll) :
    setColl data name c =
      data.map (fun kv => (kv.1, if kv.1 = name then c else kv.2)) := by
  unfold setColl
  apply List.map_congr_left
  intro kv _
  by_cases h : kv.1 = name
  · rw [if_pos (by simpa using h), if_pos h, ← h]
  · rw [if_neg (by simpa using h), if_neg h]

theorem getColl_setColl_self (data : Data) (name : String) (c : Coll) :
    getColl (setColl data name c) name = (getColl data name).map (fun _ => c) := by
  rw [setColl_eq_mapEntries]
  have hm := getColl_mapEntries data (fun key val => if key = name then c else val) name
  simp only [if_pos rfl] at hm
  exact hm

theorem getColl_setColl_other (data : Data) {name k : String} (c : Coll)
    (h : k ≠ name) :
    getColl (setColl data name c) k = getColl data k := by
  rw [setColl_eq_mapEntries]
  have hm := getColl_mapEntries data (fun key val => if key = name then c else val) k
  simp only [if_neg h] at hm
  rw [hm]
  cases getColl data k <;> rfl

/-- The per-collection effect of `nullifyForeignKey`. -/
def nullifyColl (fk : String) (id : String) : Coll → Coll
  | .list items => .list (items.map (nullifyItem fk id))
  | .single it => .single it

theorem nullifyForeignKey_eq_mapEntries (singular : String → String)
    (data : Data) (name : String) (id : String) :
    nullifyForeignKey singular data name id =
      data.map (fun kv => (kv.1,
        if kv.1 = name then kv.2 else nullifyColl (foreignKey singular name) id kv.2)) := by
  unfold nullifyForeignKey
  apply List.map_congr_left
  intro kv _
  by_cases h : kv.1 = name
  · rw [if_pos (by simpa using h), if_pos h]
  · rw [if_neg (by simpa using h), if_neg h]
    cases kv.2 <;> rfl

theorem getColl_nullify_self (singular : String → String) (data : Data)
    (name : String) (id : String) :
    getColl (nullifyForeignKey singular data name id) name = getColl data name := by
  rw [nullifyForeignKey_eq_mapEntries]
  have hm := getColl_mapEntries data
    (fun key val => if key = name then val else nullifyColl (foreignKey singular name) id val) name
  simp only [if_pos rfl] at hm
  rw [hm]
  cases getColl data name <;> rfl

theorem getColl_nullify_other (singular : String → String) (data : Data)
    {name k : String} (id : String) (h : k ≠ name) :
    getColl (nullifyForeignKey singular data name id) k =
      (getColl data k).map (nullifyColl (foreignKey singular name) id) := by
  rw [nullifyForeignKey_eq_mapEntries]
  have hm := getColl_mapEntries data
    (fun key val => if key = name then val else nullifyColl (foreignKey singular name) id val) k
  simp only [if_neg h] at hm
  exact hm

/-- The per-collection effect of `deleteDependents` on a listed collection. -/
def deleteDependentsColl (fk : String) : Coll → Coll
  | .list items =>
      .list (items.filter (fun it => !(optStrictEq (lookupVal it fk) (some .null))))
  | .single it => .single it

theorem deleteDependents_eq_mapEntries (singular : String → String)
    (data : Data) (name : String) (deps : List String) :
    deleteDependents singular data name deps =
      data.map (fun kv => (kv.1,
        if deps.contains kv.1 then deleteDependentsColl (foreignKey singular name) kv.2
        else kv.2)) := by
  unfold deleteDependents
  apply List.map_congr_left
  intro kv _
  by_cases h : deps.contains kv.1 = true
  · rw [if_pos h, if_pos h]
    cases kv.2 <;> rfl
  · rw [if_neg h, if_neg h]

theorem getColl_deleteDependents (singular : String → String) (data : Data)
    (name : String) (deps : List String) (k : String) :
    getColl (deleteDependents singular data name deps) k =
      (getColl data k).map (fun c =>
        if deps.contains k then deleteDependentsColl (foreignKey singular name) c
        else c) := by
  rw [deleteDependents_eq_mapEntries]
  exact getColl_mapEntries data
    (fun key val => if deps.contains key = true then
      deleteDependentsColl (foreignKey singular name) val else val) k

theorem replaceFirst_eq_set (p : Item → Bool) (x : Item) (l : List Item) :
    replaceFirst p x l = l.set (l.findIdx p) x := by
  induction l with
  | nil => rfl
  | cons a rest ih =>
      by_cases h : p a
      · simp [replaceFirst, List.findIdx_cons, h]
      · simp [replaceFirst, List.findIdx_cons, h, ih]

theorem removeFirst_eq_eraseIdx (p : Item → Bool) (l : List Item) :
    removeFirst p l = l.eraseIdx (l.findIdx p) := by
  induction l with
  | nil => rfl
  | cons a rest ih =>
      by_cases h : p a
      · simp [removeFirst, List.findIdx_cons, h]
      · simp [removeFirst, List.findIdx_cons, h, ih]

theorem qget_eq_none (q : Query) {k : String} (h : ∀ kv ∈ q, kv.1 ≠ k) :
    qget q k = none := by
  unfold qget
  rw [List.find?_eq_none.2 (fun kv hkv => by simpa using h kv hkv)]
  rfl

theorem nullifyItem_def (fk id : String) :
    nullifyItem fk id = fun it =>
      if optStrictEq (lookupVal it fk) (some (.str id)) then setKey it fk Value.null
      else it := rfl

/-- The stream of `randomId()` results determined by the stream of drawn
byte pairs. -/
def genOf (bytes : Nat → Nat × Nat) : Nat → String :=
  fun n => randomId (bytes n)

/-- Whether a possibly-absent value is a string. -/
def isStrVal : Option Value → Bool
  | some (.str _) => true
  | _ => false

/-- How identifier normalization relates one record to its normalized form:
a numeric `id` becomes its (non-empty) decimal string, an absent `id`
becomes some 4-character string, any other `id` value is left unchanged,
and every other field is untouched. -/
def FixedItem (it it' : Item) : Prop :=
  (∀ m : Int, lookupVal it "id" = some (.num m) →
    lookupVal it' "id" = some (.str (toString m)) ∧ toString m ≠ "") ∧
  (lookupVal it "id" = none →
    ∃ s, lookupVal it' "id" = some (.str s) ∧ s.length = 4) ∧
  (∀ v, lookupVal it "id" = some v → (∀ m : Int, v ≠ .num m) →
    lookupVal it' "id" = some v) ∧
  (∀ k, k ≠ "id" → lookupVal it' k = lookupVal it k)

/-- How normalization relates one collection to its normalized form:
list collections pointwise, singletons unchanged. -/
def CollFixed : Coll → Coll → Prop
  | .list l, .list l' => List.Forall₂ FixedItem l l'
  | .single it, c' => c' = .single it
  | .list _, .single _ => False

/-- The ids found (in order) in the new list at the positions whose old
record had no `id`. -/
def idsAssigned : List Item → List Item → List String
  | o :: os, nn :: ns =>
      if (lookupVal o "id").isNone then
        (match lookupVal nn "id" with
         | some (.str s) => s
         | _ => "") :: idsAssigned os ns
      else idsAssigned os ns
  | _, _ => []

/-- `idsAssigned` accumulated over all list collections of the store. -/
def idsAssignedAll : Data → Data → List String
  | (_, co) :: os, (_, cn) :: ns =>
      (match co, cn with
       | .list o, .list nn => idsAssigned o nn
       | _, _ => []) ++ idsAssignedAll os ns
  | _, _ => []

/-- The number of records without an `id` field. -/
def countMissing : List Item → Nat
  | [] => 0
  | it :: rest => (if (lookupVal it "id").isNone then 1 else 0) + countMissing rest

/-- `countMissing` accumulated over all list collections of the store. -/
def countMissingAll : Data → Nat
  | [] => 0
  | (_, .list l) :: rest => countMissing l + countMissingAll rest
  | (_, .single _) :: rest => countMissingAll rest

theorem toDigitsCore_length_ge (b : Nat) :
    ∀ fuel n ds, (Nat.toDigitsCore b fuel n ds).length ≥ ds.length := by
  intro fuel
  induction fuel with
  | zero => intro n ds; exact le_refl _
  | succ fuel ih =>
      intro n ds
      unfold Nat.toDigitsCore
      by_cases h : n / b = 0
      · rw [if_pos h]
        exact Nat.le_succ _
      · rw [if_neg h]
        exact le_trans (Nat.le_succ ds.length) (ih (n / b) ((n % b).digitChar :: ds))

theorem natRepr_ne_empty (n : Nat) : Nat.repr n ≠ "" := by
  have h1 : (Nat.toDigits 10 n).length ≥ 1 := by
    unfold Nat.toDigits Nat.toDigitsCore
    by_cases h : n / 10 = 0
    · rw [if_pos h]
      exact le_refl _
    · rw [if_neg h]
      exact toDigitsCore_length_ge 10 n (n / 10) _
  intro he
  have h2 : (Nat.repr n).length = (Nat.toDigits 10 n).length :=
    List.length_asString _
  rw [he] at h2
  rw [show ("" : String).length = 0 from rfl] at h2
  omega

theorem int_toString_ne_empty (m : Int) : toString m ≠ "" := by
  cases m with
  | ofNat k => exact natRepr_ne_empty k
  | negSucc k =>
      intro h
      have h2 : ("-" ++ toString (k + 1) : String) = "" := h
      have h3 := congrArg String.length h2
      rw [String.length_append] at h3
      rw [show ("-" : String).length = 1 from rfl,
        show ("" : String).length = 0 from rfl] at h3
      omega

theorem fixItem_fixed (gen : Nat → String) (hgen : ∀ k, (gen k).length = 4)
    (it : Item) (n : Nat) : FixedItem it (fixItem gen it n).1 := by
  unfold FixedItem fixItem
  cases hid : lookupVal it "id" with
  | none =>
      refine ⟨?_, ?_, ?_, ?_⟩
      · intro m hm
        simp at hm
      · intro _
        exact ⟨gen n, lookupVal_setKey_self _ _ _, hgen n⟩
      · intro v hv _
        simp at hv
      · intro k hk
        exact lookupVal_setKey_other _ _ hk
  | some v =>
      cases v with
      | num m =>
          refine ⟨?_, ?_, ?_, ?_⟩
          · intro m2 hm
            simp only [Option.some.injEq, Value.num.injEq] at hm
            subst hm
            exact ⟨lookupVal_setKey_self _ _ _, int_toString_ne_empty m⟩
          · intro h
            simp at h
          · intro v2 hv hnot
            simp only [Option.some.injEq] at hv
            exact absurd hv.symm (hnot m)
          · intro k hk
            exact lookupVal_setKey_other _ _ hk
      | str s =>
          exact ⟨fun m hm => by simp at hm, fun h => by simp at h,
            fun v2 hv _ => hid.trans hv, fun k _ => rfl⟩
      | bool b =>
          exact ⟨fun m hm => by simp at hm, fun h => by simp at h,
            fun v2 hv _ => hid.trans hv, fun k _ => rfl⟩
      | null =>
          exact ⟨fun m hm => by simp at hm, fun h => by simp at h,
            fun v2 hv _ => hid.trans hv, fun k _ => rfl⟩
      | obj fs =>
          exact ⟨fun m hm => by simp at hm, fun h => by simp at h,
            fun v2 hv _ => hid.trans hv, fun k _ => rfl⟩
      | arr es =>
          exact ⟨fun m hm => by simp at hm, fun h => by simp at h,
            fun v2 hv _ => hid.trans hv, fun k _ => rfl⟩

theorem fixItemsIds_forall₂ (gen : Nat → String)
    (hgen : ∀ k, (gen k).length = 4) (items : List Item) (n : Nat) :
    List.Forall₂ FixedItem items (fixItemsIds gen items n).1 := by
  induction items generalizing n with
  | nil => exact List.Forall₂.nil
  | cons it rest ih =>
      exact List.Forall₂.cons (fixItem_fixed gen hgen it n) (ih _)

theorem fixAllItemsIds_forall₂ (gen : Nat → String)
    (hgen : ∀ k, (gen k).length = 4) (data : Data) (n : Nat) :
    List.Forall₂ (fun kv kv' => kv'.1 = kv.1 ∧ CollFixed kv.2 kv'.2)
      data (fixAllItemsIds gen data n).1 := by
  induction data generalizing n with
  | nil => exact List.Forall₂.nil
  | cons kv rest ih =>
      obtain ⟨k, c⟩ := kv
      cases c with
      | list l =>
          exact List.Forall₂.cons ⟨rfl, fixItemsIds_forall₂ gen hgen l n⟩ (ih _)
      | single it =>
          exact List.Forall₂.cons ⟨rfl, rfl⟩ (ih _)

theorem countMissing_cons (it : Item) (rest : List Item) :
    countMissing (it :: rest) =
      (if (lookupVal it "id").isNone then 1 else 0) + countMissing rest := rfl

theorem fixItemsIds_snd (gen : Nat → String) (items : List Item) (n : Nat) :
    (fixItemsIds gen items n).2 = n + countMissing items := by
  induction items generalizing n with
  | nil => rfl
  | cons it rest ih =>
      show (fixItemsIds gen rest (fixItem gen it n).2).2 = _
      rw [countMissing_cons]
      cases hid : lookupVal it "id" with
      | none =>
          rw [show (fixItem gen it n).2 = n + 1 by unfold fixItem; rw [hid], ih]
          show n + 1 + countMissing rest = n + (1 + countMissing rest)
          omega
      | some v =>
          have h2 : (fixItem gen it n).2 = n := by
            unfold fixItem
            rw [hid]
            cases v <;> rfl
          rw [h2, ih]
          show n + countMissing rest = n + (0 + countMissing rest)
          omega

theorem idsAssigned_cons (o : Item) (os : List Item) (nn : Item) (ns : List Item) :
    idsAssigned (o :: os) (nn :: ns) =
      if (lookupVal o "id").isNone then
        (match lookupVal nn "id" with
         | some (.str s) => s
         | _ => "") :: idsAssigned os ns
      else idsAssigned os ns := rfl

theorem idsAssigned_spec (gen : Nat → String) (items : List Item) (n : Nat) :
    idsAssigned items (fixItemsIds gen items n).1 =
      (List.range (countMissing items)).map (fun i => gen (n + i)) := by
  induction items generalizing n with
  | nil => rfl
  | cons it rest ih =>
      show idsAssigned (it :: rest)
        ((fixItem gen it n).1 :: (fixItemsIds gen rest (fixItem gen it n).2).1) = _
      rw [countMissing_cons, idsAssigned_cons]
      cases hid : lookupVal it "id" with
      | none =>
          have h1 : (fixItem gen it n).1 = setKey it "id" (.str (gen n)) := by
            unfold fixItem
            rw [hid]
          have h2 : (fixItem gen it n).2 = n + 1 := by
            unfold fixItem
            rw [hid]
          rw [h1, h2]
          show (match lookupVal (setKey it "id" (Value.str (gen n))) "id" with
              | some (Value.str s) => s
              | _ => "") ::
              idsAssigned rest (fixItemsIds gen rest (n + 1)).1 =
            List.map (fun i => gen (n + i)) (List.range (1 + countMissing rest))
          rw [lookupVal_setKey_self]
          show gen n :: idsAssigned rest (fixItemsIds gen rest (n + 1)).1 =
            List.map (fun i => gen (n + i)) (List.range (1 + countMissing rest))
          rw [ih, show (1 : Nat) + countMissing rest = countMissing rest + 1 by
            omega, List.range_succ_eq_map, List.map_cons, List.map_map]
          refine congrArg₂ List.cons (congrArg gen (by omega)) ?_
          apply List.map_congr_left
          intro i _
          exact congrArg gen (by omega)
      | some v =>
          have h2 : (fixItem gen it n).2 = n := by
            unfold fixItem
            rw [hid]
            cases v <;> rfl
          rw [h2]
          show idsAssigned rest (fixItemsIds gen rest n).1 =
            List.map (fun i => gen (n + i)) (List.range (0 + countMissing rest))
          rw [show (0 : Nat) + countMissing rest = countMissing rest by omega]
          exact ih n

theorem idsAssignedAll_spec (gen : Nat → String) (data : Data) (n : Nat) :
    idsAssignedAll data (fixAllItemsIds gen data n).1 =
      (List.range (countMissingAll data)).map (fun i => gen (n + i)) := by
  induction data generalizing n with
  | nil => rfl
  | cons kv rest ih =>
      obtain ⟨k, c⟩ := kv
      cases c with
      | single it =>
          show idsAssignedAll rest (fixAllItemsIds gen rest n).1 =
            List.map (fun i => gen (n + i)) (List.range (countMissingAll rest))
          exact ih n
      | list l =>
          show idsAssigned l (fixItemsIds gen l n).1 ++
            idsAssignedAll rest (fixAllItemsIds gen rest (fixItemsIds gen l n).2).1 =
            List.map (fun i => gen (n + i))
              (List.range (countMissing l + countMissingAll rest))
          rw [fixItemsIds_snd gen l n, idsAssigned_spec gen l n,
            ih (n + countMissing l), List.range_add, List.map_append,
            List.map_map]
          refine congrArg₂ (· ++ ·) rfl ?_
          apply List.map_congr_left
          intro i _
          show gen (n + countMissing l + i) = gen (n + (countMissing l + i))
          exact congrArg gen (by omega)

/-! ### Claim theorems -/

/-- C1: the claim says `create(name, data)` always mints a fresh `id`,
ignoring any caller-supplied `id` in `data`.  The source builds the record
as `{ id: randomId(), ...data }`, spreading the payload *after* the
generated id, so a caller-supplied `id` overwrites the minted one: with a
minted id `"aaaa"` and payload `{title:'x', id:'evil'}`, the created record
keeps `id = "evil"`, not the minted identifier. -/
theorem create_caller_supplied_id_overrides_minted :
    (create "aaaa" [("posts", Coll.list [])] "posts"
        [("title", Value.str "x"), ("id", Value.str "evil")]).1 =
      some [("id", Value.str "evil"), ("title", Value.str "x")] ∧
    "evil" ≠ "aaaa" := by
  exact ⟨rfl, by decide⟩

/-- C9: every operation applied to a collection name absent from the store
returns `undefined` (modelled `none`), never throws (the `find`/`findById`
results are `.ok`), and leaves the store unchanged (the mutating operations
return the store as given). -/
theorem unknown_collection_noop (singular : String → String) (data : Data)
    (name : String) (q : Query) (id : String) (el : List String)
    (body : Item) (deps : List String) (rid : String)
    (h : getColl data name = none) :
    find singular data name q = .ok none ∧
    findById singular data name id el = .ok none ∧
    create rid data name body = (none, data) ∧
    updateById data name id body = (none, data) ∧
    destroyById singular data name id deps = (none, data) := by
  refine ⟨?_, ?_, ?_, ?_, ?_⟩ <;>
    simp [find, findById, create, updateById, destroyById, h]

/-- Witness for C9 at a concrete store and name. -/
theorem unknown_collection_noop_witness :
    find (fun s => s.dropRight 1) [("posts", Coll.list [])] "xxx" [] = .ok none ∧
    findById (fun s => s.dropRight 1) [("posts", Coll.list [])] "xxx" "1" [] = .ok none ∧
    create "abcd" [("posts", Coll.list [])] "xxx" [] =
      (none, [("posts", Coll.list [])]) ∧
    updateById [("posts", Coll.list [])] "xxx" "1" [] =
      (none, [("posts", Coll.list [])]) ∧
    destroyById (fun s => s.dropRight 1) [("posts", Coll.list [])] "xxx" "1" [] =
      (none, [("posts", Coll.list [])]) :=
  unknown_collection_noop (fun s => s.dropRight 1) [("posts", Coll.list [])]
    "xxx" [] "1" [] [] [] "abcd" rfl

/-- C8: `embed` on a missing related collection returns the record unchanged
with no field added and no error; on an existing related list collection it
returns the record with one added/updated field, keyed by the related name,
holding exactly the ordered sublist of related records whose foreign key
`singular(name) ++ "Id"` strictly equals the record's `id`, all other fields
unchanged. -/
theorem embed_characterization (singular : String → String) (data : Data)
    (name : String) (item : Item) (related : String) :
    (getColl data related = none →
      embed singular data name item related = .ok item) ∧
    (∀ rel, getColl data related = some (.list rel) →
      ∃ r', embed singular data name item related = .ok r' ∧
        lookupVal r' related =
          some (.arr ((rel.filter (fun c =>
            optStrictEq (lookupVal c (singular name ++ "Id"))
              (lookupVal item "id"))).map Value.obj)) ∧
        ∀ k, k ≠ related → lookupVal r' k = lookupVal item k) := by
  constructor
  · intro h
    unfold embed
    rw [h]
  · intro rel h
    refine ⟨setKey item related (.arr ((rel.filter (fun c =>
        optStrictEq (lookupVal c (foreignKey singular name))
          (lookupVal item "id"))).map Value.obj)), ?_, ?_, ?_⟩
    · unfold embed
      rw [h]
    · rw [lookupVal_setKey_self]
      rfl
    · intro k hk
      exact lookupVal_setKey_other _ _ hk

/-- Witness for C8: the spec's concrete example — a comment
`{id:'1', postId:'1'}` is embedded under `comments` of post `{id:'1'}`; a
post with no matching comment receives an empty list; a missing related
collection leaves the record unchanged. -/
theorem embed_characterization_witness :
    (∃ r', embed (fun _ => "post") [("comments", Coll.list [[("id", Value.str "1"),
        ("postId", Value.str "1")]])] "posts" [("id", Value.str "1")] "comments" =
          .ok r' ∧
      lookupVal r' "comments" = some (Value.arr [Value.obj [("id", Value.str "1"),
        ("postId", Value.str "1")]]) ∧
      lookupVal r' "id" = some (Value.str "1")) ∧
    (∃ r', embed (fun _ => "post") [("comments", Coll.list [[("id", Value.str "1"),
        ("postId", Value.str "1")]])] "posts" [("id", Value.str "2")] "comments" =
          .ok r' ∧
      lookupVal r' "comments" = some (Value.arr [])) ∧
    (embed (fun _ => "post") [("comments", Coll.list [[("id", Value.str "1"),
        ("postId", Value.str "1")]])] "posts" [("id", Value.str "1")] "missing" =
      .ok [("id", Value.str "1")]) := by
  refine ⟨?_, ?_, ?_⟩
  · obtain ⟨r', h1, h2, h3⟩ :=
      (embed_characterization (fun _ => "post") [("comments", Coll.list
        [[("id", Value.str "1"), ("postId", Value.str "1")]])] "posts"
        [("id", Value.str "1")] "comments").2
        [[("id", Value.str "1"), ("postId", Value.str "1")]] rfl
    exact ⟨r', h1, h2.trans rfl, (h3 "id" (by decide)).trans rfl⟩
  · obtain ⟨r', h1, h2, -⟩ :=
      (embed_characterization (fun _ => "post") [("comments", Coll.list
        [[("id", Value.str "1"), ("postId", Value.str "1")]])] "posts"
        [("id", Value.str "2")] "comments").2
        [[("id", Value.str "1"), ("postId", Value.str "1")]] rfl
    exact ⟨r', h1, h2.trans rfl⟩
  · exact (embed_characterization (fun _ => "post") [("comments", Coll.list
      [[("id", Value.str "1"), ("postId", Value.str "1")]])] "posts"
      [("id", Value.str "1")] "missing").1 rfl

/-- C7: `updateById` on an existing record returns the existing record with
the body's fields merged on top, except that `id` keeps the original value
even when the body supplies a different one, and the updated record replaces
the old one at the same position; other collections are untouched. -/
theorem updateById_characterization (data : Data) (name id : String)
    (body : Item) (items : List Item) (item : Item)
    (hcoll : getColl data name = some (.list items))
    (hfind : items.find? (idMatch id) = some item)
    (hbody : (body.map Prod.fst).Nodup) :
    ∃ nxt,
      (updateById data name id body).1 = some nxt ∧
      lookupVal nxt "id" = some (.str id) ∧
      (∀ k, k ≠ "id" →
        lookupVal nxt k =
          if k ∈ body.map Prod.fst then lookupVal body k else lookupVal item k) ∧
      getColl (updateById data name id body).2 name =
        some (.list (items.set (items.findIdx (idMatch id)) nxt)) ∧
      (∀ k, k ≠ name → getColl (updateById data name id body).2 k = getColl data k) := by
  have hu : updateById data name id body =
      (some (setKey (body.foldl (fun acc kv => setKey acc kv.1 kv.2) item) "id" (.str id)),
        setColl data name (.list (replaceFirst (idMatch id)
          (setKey (body.foldl (fun acc kv => setKey acc kv.1 kv.2) item) "id" (.str id)) items))) := by
    simp only [updateById, hcoll, hfind]
  refine ⟨_, by rw [hu], ?_, ?_, ?_, ?_⟩
  · exact lookupVal_setKey_self _ _ _
  · intro k hk
    rw [lookupVal_setKey_other _ _ hk]
    by_cases hm : k ∈ body.map Prod.fst
    · rw [if_pos hm]
      exact lookupVal_foldl_setKey_mem body item hbody hm
    · rw [if_neg hm]
      exact lookupVal_foldl_setKey_not_mem body item hm
  · rw [hu]
    show getColl (setColl data name _) name = _
    rw [getColl_setColl_self, hcoll, replaceFirst_eq_set]
    rfl
  · intro k hk
    rw [hu]
    exact getColl_setColl_other data _ hk

/-- Witness for C7: the spec's concrete example —
`updateById('posts','1',{id:'xxx', title:'y'})` keeps `id = '1'`, takes
`title = 'y'`, and replaces the record at its original position 0. -/
theorem updateById_characterization_witness :
    ∃ nxt,
      (updateById [("posts", Coll.list [[("id", Value.str "1"), ("title", Value.str "a")]])]
        "posts" "1" [("id", Value.str "xxx"), ("title", Value.str "y")]).1 = some nxt ∧
      lookupVal nxt "id" = some (Value.str "1") ∧
      lookupVal nxt "title" = some (Value.str "y") := by
  obtain ⟨nxt, h1, h2, h3, -, -⟩ :=
    updateById_characterization
      [("posts", Coll.list [[("id", Value.str "1"), ("title", Value.str "a")]])]
      "posts" "1" [("id", Value.str "xxx"), ("title", Value.str "y")]
      [[("id", Value.str "1"), ("title", Value.str "a")]]
      [("id", Value.str "1"), ("title", Value.str "a")] rfl rfl (by decide)
  have h4 := h3 "title" (by decide)
  simp only [List.map_cons, List.map_nil] at h4
  rw [if_pos (show "title" ∈ ["id", "title"] by decide)] at h4
  exact ⟨nxt, h1, h2, h4.trans rfl⟩

/-- C5: `destroyById` on an existing record (a) removes the first record
with the given id from the collection (filtered further if the collection
itself is listed as a dependent), (b) sets to `null` the foreign-key field
`singular(name) ++ "Id"` of every record in every other list collection
whose value strictly equals the deleted id, and (c) in every collection
listed in `dependents` removes every record whose foreign-key field is
`null` — including records that were already `null` before the call — and
returns the deleted record.  Singleton and absent collections are
untouched. -/
theorem destroyById_characterization (singular : String → String) (data : Data)
    (name id : String) (deps : List String) (items : List Item) (item : Item)
    (hcoll : getColl data name = some (.list items))
    (hfind : items.find? (idMatch id) = some item) :
    (destroyById singular data name id deps).1 = some item ∧
    getColl (destroyById singular data name id deps).2 name =
      some (.list (
        if deps.contains name then
          (items.eraseIdx (items.findIdx (idMatch id))).filter
            (fun it => !(optStrictEq (lookupVal it (singular name ++ "Id")) (some .null)))
        else items.eraseIdx (items.findIdx (idMatch id)))) ∧
    (∀ k l, k ≠ name → getColl data k = some (.list l) →
      getColl (destroyById singular data name id deps).2 k =
        some (.list (
          if deps.contains k then
            (l.map (fun it =>
              if optStrictEq (lookupVal it (singular name ++ "Id")) (some (.str id)) then
                setKey it (singular name ++ "Id") Value.null
              else it)).filter
              (fun it => !(optStrictEq (lookupVal it (singular name ++ "Id")) (some .null)))
          else l.map (fun it =>
            if optStrictEq (lookupVal it (singular name ++ "Id")) (some (.str id)) then
              setKey it (singular name ++ "Id") Value.null
            else it)))) ∧
    (∀ k it, k ≠ name → getColl data k = some (.single it) →
      getColl (destroyById singular data name id deps).2 k = some (.single it)) ∧
    (∀ k, getColl data k = none →
      getColl (destroyById singular data name id deps).2 k = none) := by
  have hd : destroyById singular data name id deps =
      (some item, deleteDependents singular
        (nullifyForeignKey singular
          (setColl data name (.list (removeFirst (idMatch id) items))) name id)
        name deps) := by
    simp only [destroyById, hcoll, hfind]
  refine ⟨by rw [hd], ?_, ?_, ?_, ?_⟩
  · rw [hd]
    show getColl (deleteDependents _ _ _ _) name = _
    rw [getColl_deleteDependents, getColl_nullify_self, getColl_setColl_self, hcoll,
      removeFirst_eq_eraseIdx]
    by_cases hdep : name ∈ deps <;>
      simp [hdep, deleteDependentsColl, nullifyColl, nullifyItem, foreignKey]
  · intro k l hk hl
    rw [hd]
    show getColl (deleteDependents _ _ _ _) k = _
    rw [getColl_deleteDependents, getColl_nullify_other _ _ _ hk,
      getColl_setColl_other _ _ hk, hl]
    by_cases hdep : k ∈ deps <;>
      simp [hdep, deleteDependentsColl, nullifyColl, nullifyItem_def, foreignKey]
  · intro k it hk hit
    rw [hd]
    show getColl (deleteDependents _ _ _ _) k = _
    rw [getColl_deleteDependents, getColl_nullify_other _ _ _ hk,
      getColl_setColl_other _ _ hk, hit]
    by_cases hdep : k ∈ deps <;>
      simp [hdep, deleteDependentsColl, nullifyColl, nullifyItem_def, foreignKey]
  · intro k hnone
    rw [hd]
    show getColl (deleteDependents _ _ _ _) k = _
    by_cases hk : k = name
    · subst hk
      rw [getColl_deleteDependents, getColl_nullify_self, getColl_setColl_self, hnone]
      rfl
    · rw [getColl_deleteDependents, getColl_nullify_other _ _ _ hk,
        getColl_setColl_other _ _ hk, hnone]
      rfl

/-- Witness for C5: deleting post `'1'` with dependents `['comments']` from
`comments = [{id:'1', postId:'1'}, {id:'2', postId:null}]` returns the post,
and the comments collection becomes empty: the first comment is nulled by
step (b) and removed by step (c), and the second — whose foreign key was
already `null` before the call — is removed as well. -/
theorem destroyById_characterization_witness :
    (destroyById (fun _ => "post")
      [("posts", Coll.list [[("id", Value.str "1")]]),
       ("comments", Coll.list [[("id", Value.str "1"), ("postId", Value.str "1")],
         [("id", Value.str "2"), ("postId", Value.null)]])]
      "posts" "1" ["comments"]).1 = some [("id", Value.str "1")] ∧
    getColl (destroyById (fun _ => "post")
      [("posts", Coll.list [[("id", Value.str "1")]]),
       ("comments", Coll.list [[("id", Value.str "1"), ("postId", Value.str "1")],
         [("id", Value.str "2"), ("postId", Value.null)]])]
      "posts" "1" ["comments"]).2 "comments" = some (Coll.list []) := by
  obtain ⟨h1, -, h3, -, -⟩ :=
    destroyById_characterization (fun _ => "post")
      [("posts", Coll.list [[("id", Value.str "1")]]),
       ("comments", Coll.list [[("id", Value.str "1"), ("postId", Value.str "1")],
         [("id", Value.str "2"), ("postId", Value.null)]])]
      "posts" "1" ["comments"] [[("id", Value.str "1")]] [("id", Value.str "1")]
      rfl rfl
  refine ⟨h1, ?_⟩
  have h4 := h3 "comments"
    [[("id", Value.str "1"), ("postId", Value.str "1")],
     [("id", Value.str "2"), ("postId", Value.null)]] (by decide) rfl
  exact h4.trans (by rfl)

/-- C10: foreign keys are matched only by strict equality, with no numeric
coercion.  A child record whose foreign-key field holds a *number* is never
embedded under a parent whose `id` is a *string*; `destroyById` (whose
nullification compares the foreign key against the string id) leaves such a
record in its collection unchanged, its numeric foreign key intact; and
load-time normalization (`fixItem`) never alters any field other than
`id`, so it never stringifies a foreign-key field. -/
theorem foreign_keys_not_coerced (singular : String → String) (data : Data)
    (name id : String) (deps : List String) :
    (∀ item related rel child n,
      getColl data related = some (.list rel) → child ∈ rel →
      lookupVal child (singular name ++ "Id") = some (.num n) →
      (∃ s, lookupVal item "id" = some (.str s)) →
      ∃ r' vs, embed singular data name item related = .ok r' ∧
        lookupVal r' related = some (.arr vs) ∧ Value.obj child ∉ vs) ∧
    (∀ items item k l child n,
      getColl data name = some (.list items) →
      items.find? (idMatch id) = some item →
      k ≠ name → getColl data k = some (.list l) → child ∈ l →
      lookupVal child (singular name ++ "Id") = some (.num n) →
      ∃ l', getColl (destroyById singular data name id deps).2 k = some (.list l') ∧
        child ∈ l') ∧
    (∀ gen it m k, k ≠ "id" →
      lookupVal (fixItem gen it m).1 k = lookupVal it k) := by
  refine ⟨?_, ?_, ?_⟩
  · rintro item related rel child n hrel hmem hfk ⟨s, hid⟩
    refine ⟨setKey item related (.arr ((rel.filter (fun r =>
        optStrictEq (lookupVal r (foreignKey singular name))
          (lookupVal item "id"))).map Value.obj)),
      (rel.filter (fun r =>
        optStrictEq (lookupVal r (foreignKey singular name))
          (lookupVal item "id"))).map Value.obj, ?_, ?_, ?_⟩
    · unfold embed
      rw [hrel]
    · exact lookupVal_setKey_self _ _ _
    · intro hin
      obtain ⟨c, hc, hobj⟩ := List.mem_map.mp hin
      have hceq : c = child := by
        injection hobj
      subst hceq
      have := (List.mem_filter.mp hc).2
      rw [show foreignKey singular name = singular name ++ "Id" from rfl,
        hfk, hid] at this
      simp [optStrictEq, strictEq] at this
  · intro items item k l child n hcoll hfind hk hl hmem hfk
    have hd : (destroyById singular data name id deps).2 =
        deleteDependents singular
          (nullifyForeignKey singular
            (setColl data name (.list (removeFirst (idMatch id) items))) name id)
          name deps := by
      simp only [destroyById, hcoll, hfind]
    rw [hd, getColl_deleteDependents, getColl_nullify_other _ _ _ hk,
      getColl_setColl_other _ _ hk, hl]
    have hnul : nullifyItem (foreignKey singular name) id child = child := by
      unfold nullifyItem
      rw [show foreignKey singular name = singular name ++ "Id" from rfl, hfk]
      simp [optStrictEq, strictEq]
    have hmem2 : child ∈ l.map (nullifyItem (foreignKey singular name) id) :=
      hnul ▸ List.mem_map_of_mem _ hmem
    by_cases hdep : k ∈ deps
    · refine ⟨(l.map (nullifyItem (foreignKey singular name) id)).filter
          (fun it => !(optStrictEq (lookupVal it (foreignKey singular name))
            (some .null))), ?_, ?_⟩
      · simp [hdep, nullifyColl, deleteDependentsColl]
      · refine List.mem_filter.mpr ⟨hmem2, ?_⟩
        rw [show foreignKey singular name = singular name ++ "Id" from rfl, hfk]
        simp [optStrictEq, strictEq]
    · exact ⟨l.map (nullifyItem (foreignKey singular name) id),
        by simp [hdep, nullifyColl, deleteDependentsColl], hmem2⟩
  · intro gen it m k hk
    unfold fixItem
    cases hid : lookupVal it "id" with
    | none => exact lookupVal_setKey_other _ _ hk
    | some v =>
        cases v with
        | num m => exact lookupVal_setKey_other _ _ hk
        | str s => rfl
        | bool b => rfl
        | null => rfl
        | obj fs => rfl
        | arr es => rfl

/-- Witness for C10: posts `[{id:'1'}]`, comments `[{id:'9', postId: 1}]`
(a numeric foreign key): the comment is not embedded under post `'1'`, and
after `destroyById('posts','1')` the comment is still present with its
numeric foreign key unchanged. -/
theorem foreign_keys_not_coerced_witness :
    (∃ r' vs, embed (fun _ => "post")
        [("posts", Coll.list [[("id", Value.str "1")]]),
         ("comments", Coll.list [[("id", Value.str "9"), ("postId", Value.num 1)]])]
        "posts" [("id", Value.str "1")] "comments" = .ok r' ∧
      lookupVal r' "comments" = some (Value.arr vs) ∧
      Value.obj [("id", Value.str "9"), ("postId", Value.num 1)] ∉ vs) ∧
    (∃ l', getColl (destroyById (fun _ => "post")
        [("posts", Coll.list [[("id", Value.str "1")]]),
         ("comments", Coll.list [[("id", Value.str "9"), ("postId", Value.num 1)]])]
        "posts" "1" []).2 "comments" = some (Coll.list l') ∧
      [("id", Value.str "9"), ("postId", Value.num 1)] ∈ l') := by
  constructor
  · exact (foreign_keys_not_coerced (fun _ => "post")
      [("posts", Coll.list [[("id", Value.str "1")]]),
       ("comments", Coll.list [[("id", Value.str "9"), ("postId", Value.num 1)]])]
      "posts" "1" []).1 [("id", Value.str "1")] "comments"
      [[("id", Value.str "9"), ("postId", Value.num 1)]]
      [("id", Value.str "9"), ("postId", Value.num 1)] 1 rfl
      (List.mem_singleton.mpr rfl) rfl ⟨"1", rfl⟩
  · exact (foreign_keys_not_coerced (fun _ => "post")
      [("posts", Coll.list [[("id", Value.str "1")]]),
       ("comments", Coll.list [[("id", Value.str "9"), ("postId", Value.num 1)]])]
      "posts" "1" []).2.1 [[("id", Value.str "1")]] [("id", Value.str "1")]
      "comments" [[("id", Value.str "9"), ("postId", Value.num 1)]]
      [("id", Value.str "9"), ("postId", Value.num 1)] 1 rfl rfl
      (by decide) rfl (List.mem_singleton.mpr rfl) rfl

/-- C2: on a list collection, with a query made only of non-reserved keys,
`find` returns exactly the records matching the query filter, in original
order; and a record matches the filter precisely when, for every query key —
parsed as `<field>` or `<field>_<op>` with `op ∈ {lt,lte,gt,gte,ne}`, the
field a dot-path — its resolved attribute satisfies the comparison against
at least one of the key's values (OR across values of one key, AND across
distinct keys).  The filter/sort/paginate pipeline is absent from the source
(`find` is reduced there), so this is settled against the definitions
modelled from the spec. -/
theorem find_filters_by_query (singular : String → String) (data : Data)
    (name : String) (items : List Item) (q : Query)
    (hcoll : getColl data name = some (.list items))
    (hq : ∀ kv ∈ q, kv.1 ∉ reservedKeys) :
    find singular data name q = .ok (some (.items (items.filter (matchesItem q)))) ∧
    (∀ it, matchesItem q it = true ↔
      ∀ kv ∈ q, ∃ v ∈ qvalStrings kv.2,
        compareCond (parseCond kv.1).2 (getPath it (parseCond kv.1).1) v = true) := by
  have hres : ∀ k ∈ reservedKeys, qget q k = none := fun k hk =>
    qget_eq_none q (fun kv hkv e => (hq kv hkv) (e ▸ hk))
  have h_embed : qget q "_embed" = none := hres _ (by decide)
  have h_sort : qget q "_sort" = none := hres _ (by decide)
  have h_page : qget q "_page" = none := hres _ (by decide)
  have h_per : qget q "_per_page" = none := hres _ (by decide)
  have h_start : qget q "_start" = none := hres _ (by decide)
  have h_end : qget q "_end" = none := hres _ (by decide)
  have h_limit : qget q "_limit" = none := hres _ (by decide)
  constructor
  · have he : embedStep singular data name q items = .ok items := by
      unfold embedStep
      rw [h_embed]
      rfl
    have hs : sortStep q (items.filter (matchesItem q)) =
        items.filter (matchesItem q) := by
      unfold sortStep
      rw [h_sort]
    have hpm : pageMode q = false := by
      simp [pageMode, qint, h_page, h_per]
    have hsm : sliceMode q = false := by
      simp [sliceMode, qint, h_start, h_end, h_limit]
    simp only [find, hcoll, he, Except.map, hs, hpm, hsm, Bool.false_eq_true,
      if_false]
  · intro it
    unfold matchesItem
    rw [List.all_eq_true]
    constructor
    · intro h kv hkv
      have h2 := h kv hkv
      rw [if_neg (by simpa using fun e => hq kv hkv (by simpa using e))] at h2
      exact List.any_eq_true.mp h2
    · intro h kv hkv
      rw [if_neg (by simpa using fun e => hq kv hkv (by simpa using e))]
      exact List.any_eq_true.mpr (h kv hkv)

/-- Witness for C2: the spec's concrete example — on records
`{id:'1',views:100}`, `{id:'2',views:200}`, `{id:'3',views:300}`,
`find('posts', {views_lt:'300'})` returns exactly the first two records, in
original order. -/
theorem find_filters_by_query_witness :
    find (fun s => s.dropRight 1)
      [("posts", Coll.list [[("id", Value.str "1"), ("views", Value.num 100)],
        [("id", Value.str "2"), ("views", Value.num 200)],
        [("id", Value.str "3"), ("views", Value.num 300)]])]
      "posts" [("views_lt", QVal.str "300")] =
      .ok (some (.items [[("id", Value.str "1"), ("views", Value.num 100)],
        [("id", Value.str "2"), ("views", Value.num 200)]])) := by
  have h := (find_filters_by_query (fun s => s.dropRight 1)
    [("posts", Coll.list [[("id", Value.str "1"), ("views", Value.num 100)],
      [("id", Value.str "2"), ("views", Value.num 200)],
      [("id", Value.str "3"), ("views", Value.num 300)]])]
    "posts"
    [[("id", Value.str "1"), ("views", Value.num 100)],
     [("id", Value.str "2"), ("views", Value.num 200)],
     [("id", Value.str "3"), ("views", Value.num 300)]]
    [("views_lt", QVal.str "300")] rfl (by decide)).1
  exact h.trans (by rfl)

/-- C3: with `_page` and/or `_per_page` present (page mode), `find` wraps
the filtered and sorted list in a `PaginatedItems` value with `first = 1`,
`prev = page-1` when `page > 1` else `none`, `next = page+1` when
`page < totalPages` else `none`, `last = pages = totalPages =
ceil(count / perPage)` (equal to 1 when the count is 0, and characterized
by `perPage * (totalPages - 1) < count ≤ perPage * totalPages` otherwise),
`items` = the total filtered count, and `data` = the requested page's
slice; page and page-size are clamped to at least 1.  Pagination is elided
from the source's `find`, so this is settled against the spec-modelled
pipeline. -/
theorem find_paginates (singular : String → String) (data : Data)
    (name : String) (items : List Item) (q : Query)
    (hcoll : getColl data name = some (.list items))
    (hembed : qget q "_embed" = none)
    (hpage : pageMode q = true) :
    ∃ P, find singular data name q = .ok (some (.paginated P)) ∧
      P.first = 1 ∧
      P.items = (sortStep q (items.filter (matchesItem q))).length ∧
      P.last = max 1 ((P.items + perPageOf q - 1) / perPageOf q) ∧
      P.pages = P.last ∧
      1 ≤ pageOf q ∧ 1 ≤ perPageOf q ∧
      P.prev = (if 1 < pageOf q then some (pageOf q - 1) else none) ∧
      P.next = (if pageOf q < P.last then some (pageOf q + 1) else none) ∧
      (P.items = 0 → P.last = 1) ∧
      (0 < P.items →
        perPageOf q * (P.last - 1) < P.items ∧ P.items ≤ perPageOf q * P.last) ∧
      P.data = ((sortStep q (items.filter (matchesItem q))).drop
        ((pageOf q - 1) * perPageOf q)).take (perPageOf q) := by
  have hper : 1 ≤ perPageOf q := by
    unfold perPageOf
    omega
  have hpg : 1 ≤ pageOf q := by
    unfold pageOf
    omega
  have he : embedStep singular data name q items = .ok items := by
    unfold embedStep
    rw [hembed]
    rfl
  refine ⟨paginateList (pageOf q) (perPageOf q)
    (sortStep q (items.filter (matchesItem q))), ?_, rfl, rfl, rfl, rfl,
    hpg, hper, rfl, rfl, ?_, ?_, rfl⟩
  · simp only [find, hcoll, he, Except.map, hpage, if_true]
  · intro h0
    show max 1 (((sortStep q (items.filter (matchesItem q))).length +
      perPageOf q - 1) / perPageOf q) = 1
    rw [show (sortStep q (items.filter (matchesItem q))).length = 0 from h0]
    rw [Nat.div_eq_of_lt (by omega)]
    rfl
  · intro hn
    have hn2 : 0 < (sortStep q (items.filter (matchesItem q))).length := hn
    show perPageOf q * (max 1 (((sortStep q (items.filter (matchesItem q))).length +
        perPageOf q - 1) / perPageOf q) - 1) <
        (sortStep q (items.filter (matchesItem q))).length ∧
      (sortStep q (items.filter (matchesItem q))).length ≤
        perPageOf q * max 1 (((sortStep q (items.filter (matchesItem q))).length +
          perPageOf q - 1) / perPageOf q)
    set n := (sortStep q (items.filter (matchesItem q))).length with hndef
    set per := perPageOf q with hperdef
    set d := (n + per - 1) / per with hddef
    have hd1 : 1 ≤ d := by
      rw [hddef, Nat.one_le_div_iff (by omega)]
      omega
    rw [Nat.max_eq_right hd1]
    have hx := Nat.div_add_mod (n + per - 1) per
    have hr : (n + per - 1) % per < per := Nat.mod_lt _ (by omega)
    have hmul : per * (d - 1) + per = per * d := by
      cases hd : d with
      | zero => omega
      | succ d2 => simp [Nat.succ_sub_one, Nat.mul_succ]
    rw [← hddef] at hx
    omega

/-- Witness for C3: the spec's concrete example — 3 records with
`{_page:1, _per_page:2}` yield `{first:1, prev:null, next:2, last:2,
pages:2, items:3, data:[rec1, rec2]}`. -/
theorem find_paginates_witness :
    ∃ P, find (fun s => s.dropRight 1)
      [("posts", Coll.list [[("id", Value.str "1"), ("views", Value.num 100)],
        [("id", Value.str "2"), ("views", Value.num 200)],
        [("id", Value.str "3"), ("views", Value.num 300)]])]
      "posts" [("_page", QVal.num 1), ("_per_page", QVal.num 2)] =
        .ok (some (.paginated P)) ∧
      P.first = 1 ∧ P.prev = none ∧ P.next = some 2 ∧ P.last = 2 ∧
      P.pages = 2 ∧ P.items = 3 ∧
      P.data = [[("id", Value.str "1"), ("views", Value.num 100)],
        [("id", Value.str "2"), ("views", Value.num 200)]] := by
  obtain ⟨P, hf, h1, hitems, hlast, hpages, -, -, hprev, hnext, -, -, hdata⟩ :=
    find_paginates (fun s => s.dropRight 1)
      [("posts", Coll.list [[("id", Value.str "1"), ("views", Value.num 100)],
        [("id", Value.str "2"), ("views", Value.num 200)],
        [("id", Value.str "3"), ("views", Value.num 300)]])]
      "posts"
      [[("id", Value.str "1"), ("views", Value.num 100)],
       [("id", Value.str "2"), ("views", Value.num 200)],
       [("id", Value.str "3"), ("views", Value.num 300)]]
      [("_page", QVal.num 1), ("_per_page", QVal.num 2)] rfl rfl rfl
  have hi : P.items = 3 := hitems.trans (by rfl)
  rw [hi] at hlast
  have hl : P.last = 2 := hlast.trans (by rfl)
  rw [hl] at hnext
  exact ⟨P, hf, h1, hprev.trans (by rfl), hnext.trans (by rfl), hl,
    hpages.trans hl, hi, hdata.trans (by rfl)⟩

theorem keyLt_irrefl (a : Nat × Int × String) : ¬ keyLt a a := by
  unfold keyLt
  simp

theorem keyLt_trans {a b c : Nat × Int × String} :
    keyLt a b → keyLt b c → keyLt a c := by
  unfold keyLt
  rintro (h | ⟨e1, h⟩) (g | ⟨f1, g⟩)
  · exact Or.inl (lt_trans h g)
  · exact Or.inl (f1 ▸ h)
  · exact Or.inl (e1 ▸ g)
  · refine Or.inr ⟨e1.trans f1, ?_⟩
    rcases h with h | ⟨e2, h⟩ <;> rcases g with g | ⟨f2, g⟩
    · exact Or.inl (lt_trans h g)
    · exact Or.inl (f2 ▸ h)
    · exact Or.inl (e2 ▸ g)
    · exact Or.inr ⟨e2.trans f2, lt_trans h g⟩

theorem keyLt_connex {a b : Nat × Int × String} (h : a ≠ b) :
    keyLt a b ∨ keyLt b a := by
  obtain ⟨a1, a2, a3⟩ := a
  obtain ⟨b1, b2, b3⟩ := b
  unfold keyLt
  simp only
  rcases lt_trichotomy a1 b1 with h1 | h1 | h1
  · exact Or.inl (Or.inl h1)
  · rcases lt_trichotomy a2 b2 with h2 | h2 | h2
    · exact Or.inl (Or.inr ⟨h1, Or.inl h2⟩)
    · rcases lt_trichotomy a3 b3 with h3 | h3 | h3
      · exact Or.inl (Or.inr ⟨h1, Or.inr ⟨h2, h3⟩⟩)
      · subst h1; subst h2; subst h3; exact absurd rfl h
      · exact Or.inr (Or.inr ⟨h1.symm, Or.inr ⟨h2.symm, h3⟩⟩)
    · exact Or.inr (Or.inr ⟨h1.symm, Or.inl h2⟩)
  · exact Or.inr (Or.inl h1)

theorem fieldsLe_total (fields : List (String × Bool)) (a b : Item) :
    (fieldsLe fields a b || fieldsLe fields b a) = true := by
  induction fields with
  | nil => rfl
  | cons f rest ih =>
      obtain ⟨p, desc⟩ := f
      unfold fieldsLe
      by_cases he : sortKey (getPath a p) = sortKey (getPath b p)
      · rw [if_pos he, if_pos he.symm]
        exact ih
      · rw [if_neg he, if_neg (Ne.symm he)]
        rcases keyLt_connex he with h | h <;> cases desc <;>
          simp [h]

theorem fieldsLe_trans (fields : List (String × Bool)) (a b c : Item) :
    fieldsLe fields a b = true → fieldsLe fields b c = true →
    fieldsLe fields a c = true := by
  induction fields with
  | nil => intro _ _; rfl
  | cons f rest ih =>
      obtain ⟨p, desc⟩ := f
      intro hab hbc
      unfold fieldsLe at hab hbc ⊢
      by_cases hab1 : sortKey (getPath a p) = sortKey (getPath b p) <;>
        by_cases hbc1 : sortKey (getPath b p) = sortKey (getPath c p)
      · rw [if_pos (hab1.trans hbc1)]
        rw [if_pos hab1] at hab
        rw [if_pos hbc1] at hbc
        exact ih hab hbc
      · rw [if_neg (fun e => hbc1 (hab1 ▸ e)), hab1]
        rwa [if_neg hbc1] at hbc
      · rw [if_neg (fun e => hab1 (hbc1 ▸ e)), ← hbc1]
        rwa [if_neg hab1] at hab
      · rw [if_neg hab1] at hab
        rw [if_neg hbc1] at hbc
        cases desc
        · simp only [Bool.false_eq_true, if_false, decide_eq_true_eq] at hab hbc
          have hac := keyLt_trans hab hbc
          have hne : sortKey (getPath a p) ≠ sortKey (getPath c p) :=
            fun e => keyLt_irrefl _ (e ▸ hac)
          rw [if_neg hne]
          simp [hac]
        · simp only [if_true, decide_eq_true_eq] at hab hbc
          have hac := keyLt_trans hbc hab
          have hne : sortKey (getPath a p) ≠ sortKey (getPath c p) :=
            fun e => keyLt_irrefl _ (e ▸ hac)
          rw [if_neg hne]
          simp [hac]

/-- C4: with `_sort` present, `find` returns a permutation of the filtered
records that is sorted under the multi-key comparator derived from the
comma-separated field list (a `-` prefix reversing one field) and is stable:
any pair already correctly ordered in the filtered list keeps its relative
order.  With `_sort` absent, the filtered records come back in their
original insertion order.  Sorting is elided from the source's `find`, so
this is settled against the spec-modelled pipeline. -/
theorem find_sort_behaviour (singular : String → String) (data : Data)
    (name : String) (items : List Item) (q : Query)
    (hcoll : getColl data name = some (.list items))
    (hembed : qget q "_embed" = none)
    (hpage : pageMode q = false) (hslice : sliceMode q = false) :
    (qget q "_sort" = none →
      find singular data name q =
        .ok (some (.items (items.filter (matchesItem q))))) ∧
    (∀ s, qget q "_sort" = some (.str s) →
      ∃ out, find singular data name q = .ok (some (.items out)) ∧
        out.Perm (items.filter (matchesItem q)) ∧
        out.Pairwise (fun a b => fieldsLe (parseSortFields s) a b = true) ∧
        (∀ a b, fieldsLe (parseSortFields s) a b = true →
          [a, b].Sublist (items.filter (matchesItem q)) →
          [a, b].Sublist out)) := by
  have he : embedStep singular data name q items = .ok items := by
    unfold embedStep
    rw [hembed]
    rfl
  constructor
  · intro hsort
    have hs : sortStep q (items.filter (matchesItem q)) =
        items.filter (matchesItem q) := by
      unfold sortStep
      rw [hsort]
    simp only [find, hcoll, he, Except.map, hs, hpage, hslice,
      Bool.false_eq_true, if_false]
  · intro s hsort
    have hs : sortStep q (items.filter (matchesItem q)) =
        (items.filter (matchesItem q)).mergeSort
          (fieldsLe (parseSortFields s)) := by
      unfold sortStep
      rw [hsort]
    refine ⟨(items.filter (matchesItem q)).mergeSort
      (fieldsLe (parseSortFields s)), ?_, ?_, ?_, ?_⟩
    · simp only [find, hcoll, he, Except.map, hs, hpage, hslice,
        Bool.false_eq_true, if_false]
    · exact List.mergeSort_perm _ _
    · exact List.sorted_mergeSort
        (fun a b c => fieldsLe_trans (parseSortFields s) a b c)
        (fun a b => fieldsLe_total (parseSortFields s) a b) _
    · intro a b hab hsub
      exact List.pair_sublist_mergeSort
        (fun a b c => fieldsLe_trans (parseSortFields s) a b c)
        (fun a b => fieldsLe_total (parseSortFields s) a b) hab hsub

/-- Witness for C4: sorting 3 posts (listed with views 300, 100, 200) by
`_sort=views` on a concrete store. -/
theorem find_sort_behaviour_witness :
    ∃ out, find (fun s => s.dropRight 1)
      [("posts", Coll.list [[("id", Value.str "3"), ("views", Value.num 300)],
        [("id", Value.str "1"), ("views", Value.num 100)],
        [("id", Value.str "2"), ("views", Value.num 200)]])]
      "posts" [("_sort", QVal.str "views")] = .ok (some (.items out)) ∧
      out.Perm ([[("id", Value.str "3"), ("views", Value.num 300)],
        [("id", Value.str "1"), ("views", Value.num 100)],
        [("id", Value.str "2"), ("views", Value.num 200)]].filter
          (matchesItem [("_sort", QVal.str "views")])) ∧
      out.Pairwise (fun a b => fieldsLe (parseSortFields "views") a b = true) ∧
      (∀ a b, fieldsLe (parseSortFields "views") a b = true →
        [a, b].Sublist ([[("id", Value.str "3"), ("views", Value.num 300)],
          [("id", Value.str "1"), ("views", Value.num 100)],
          [("id", Value.str "2"), ("views", Value.num 200)]].filter
            (matchesItem [("_sort", QVal.str "views")])) →
        [a, b].Sublist out) :=
  (find_sort_behaviour (fun s => s.dropRight 1)
    [("posts", Coll.list [[("id", Value.str "3"), ("views", Value.num 300)],
      [("id", Value.str "1"), ("views", Value.num 100)],
      [("id", Value.str "2"), ("views", Value.num 200)]])]
    "posts"
    [[("id", Value.str "3"), ("views", Value.num 300)],
     [("id", Value.str "1"), ("views", Value.num 100)],
     [("id", Value.str "2"), ("views", Value.num 200)]]
    [("_sort", QVal.str "views")] rfl rfl rfl rfl).2 "views" rfl

/-- C6 counterexample: the claim says every record in every list collection
has a string, non-empty `id` after construction, while also saying
pre-existing non-undefined `id` values are never altered.  `fixItemsIds`
only stringifies *numeric* ids and replaces *absent* ones, so a record whose
`id` is `null` survives construction with `id` still `null` — not a string.
(Here the construction-time store is `posts = [{id: null}]`, with any random
stream.) -/
theorem id_normalization_counterexample :
    (fixAllItemsIds (genOf (fun k => (k, k)))
      [("posts", Coll.list [[("id", Value.null)]])] 0).1 =
      [("posts", Coll.list [[("id", Value.null)]])] ∧
    isStrVal (lookupVal [("id", Value.null)] "id") = false :=
  ⟨rfl, rfl⟩

/-- C6 (amended): after construction, in every list collection, numeric
`id`s are converted to their (non-empty) decimal string representation,
absent `id`s are replaced by the successive freshly drawn `randomId`
results — 4-character strings, pairwise distinct whenever the underlying
random draws are distinct (no uniqueness check is performed) — and every
other pre-existing `id` value (e.g. `null`, boolean, or empty-string ids)
is left unchanged, as is every non-`id` field; singleton collections are
untouched. -/
theorem fixAllItemsIds_characterization (bytes : Nat → Nat × Nat)
    (data : Data) (n : Nat) :
    List.Forall₂ (fun kv kv' => kv'.1 = kv.1 ∧ CollFixed kv.2 kv'.2)
      data (fixAllItemsIds (genOf bytes) data n).1 ∧
    idsAssignedAll data (fixAllItemsIds (genOf bytes) data n).1 =
      (List.range (countMissingAll data)).map (fun i => randomId (bytes (n + i))) ∧
    ((∀ i j, randomId (bytes i) = randomId (bytes j) → i = j) →
      (idsAssignedAll data (fixAllItemsIds (genOf bytes) data n).1).Nodup) := by
  have hgen : ∀ k, (genOf bytes k).length = 4 := fun k => rfl
  refine ⟨fixAllItemsIds_forall₂ (genOf bytes) hgen data n,
    idsAssignedAll_spec (genOf bytes) data n, ?_⟩
  intro hinj
  rw [idsAssignedAll_spec (genOf bytes) data n]
  exact List.Nodup.map_on
    (fun i _ j _ e => by have := hinj (n + i) (n + j) e; omega)
    (List.nodup_range _)

/-- Witness for C6 at a concrete store: `posts = [{id:'1'}, {}, {id:2}]`,
`comments = [{}]`, byte draws `(0,0), (1,1), …` — the two id-less records
receive `"0000"` and `"0101"`, which are distinct. -/
theorem fixAllItemsIds_characterization_witness :
    idsAssignedAll
      [("posts", Coll.list [[("id", Value.str "1")], [], [("id", Value.num 2)]]),
       ("comments", Coll.list [[]])]
      (fixAllItemsIds (genOf (fun k => (k, k)))
        [("posts", Coll.list [[("id", Value.str "1")], [], [("id", Value.num 2)]]),
         ("comments", Coll.list [[]])] 0).1 = ["0000", "0101"] ∧
    (["0000", "0101"] : List String).Nodup := by
  constructor
  · exact (fixAllItemsIds_characterization (fun k => (k, k))
      [("posts", Coll.list [[("id", Value.str "1")], [], [("id", Value.num 2)]]),
       ("comments", Coll.list [[]])] 0).2.1.trans (by rfl)
  · decide

end VagaCerta
